import Mathlib

/-!
Shallow embedding of the VoidNexus harvesting engine core:
`src/lib/nexus-engine.ts` (NexusHunter: runSweep, calculateCondition,
getBaseValue, safeApiCall, scrapeWithPlaywright) and the ProxyCommander
(scrapeSources, validateBatch, getOptimalProxy).

Modelling conventions:
- JS numbers are modelled as rationals (ℚ); the multipliers 0.10 .. 1.00 and
  the margin factor 1.3 are exact rationals.
- Network effects are abstracted as explicit environment functions passed in
  as parameters (e.g. the result of each HTTP attempt, the result of each
  proxy probe); the control flow around them is translated from the source.
- Timestamps (`new Date().toISOString()`) are passed in as opaque strings or
  dropped where no claim depends on them.
-/

namespace VoidNexus

/-- Checks whether the char list `p` is a leading segment of `l`
(helper for substring containment). -/
def leadSeg : List Char → List Char → Bool
  | [], _ => true
  | _ :: _, [] => false
  | p :: ps, c :: cs => p == c && leadSeg ps cs

/-- Checks whether `p` occurs as a contiguous run inside `l`. -/
def containsFrom (p : List Char) : List Char → Bool
  | [] => p.isEmpty
  | c :: cs => leadSeg p (c :: cs) || containsFrom p cs

/-- Models JS `s.includes(pat)`: substring containment. -/
def strContains (s pat : String) : Bool :=
  containsFrom pat.data s.data

/-- Models JS `s.toLowerCase()` character by character (structural
recursion over the character list, so that concrete instances reduce). -/
def strToLower (s : String) : String :=
  String.mk (s.data.map Char.toLower)

/-- Splits a character list on a separator character, keeping empty
segments, as JS `s.split(sep)` does. -/
def splitOnChar (sep : Char) : List Char → List (List Char)
  | [] => [[]]
  | c :: cs =>
    match splitOnChar sep cs with
    | [] => [[]]
    | h :: t => if c = sep then [] :: h :: t else (c :: h) :: t

/-- Models JS `s.trim()`: strips leading and trailing whitespace. -/
def trimChars (cs : List Char) : List Char :=
  ((cs.dropWhile Char.isWhitespace).reverse.dropWhile Char.isWhitespace).reverse

/-- The CONDITION_SCALE multipliers of `nexus-engine.ts` (scores 1..5).
The scale is only ever indexed by `calculateCondition`, which returns 1..5. -/
def condMultiplier : Nat → ℚ
  | 1 => 0.10
  | 2 => 0.40
  | 3 => 0.65
  | 4 => 0.85
  | 5 => 1.00
  | _ => 0

/-- The TARGET_BRANDS list of `nexus-engine.ts`, in source order. -/
def TARGET_BRANDS : List String :=
  ["Hermès", "Chanel", "Louis Vuitton", "Gucci", "Prada", "Dior", "Goyard",
   "Bottega Veneta", "Celine", "Balenciaga", "Fendi", "Saint Laurent",
   "Valentino", "Givenchy", "Burberry", "Chloe", "Loewe", "Miu Miu",
   "Salvatore Ferragamo", "Versace"]

/-- NexusHunter.calculateCondition: ordered keyword match over the
lowercased raw condition text, yielding a score 1..5. -/
def calculateCondition (rawCondition : String) : Nat :=
  let text := strToLower rawCondition
  if strContains text "new" || strContains text "mint" then 5
  else if strContains text "excellent" then 4
  else if strContains text "good" || strContains text "used" then 3
  else if strContains text "fair" || strContains text "parts" then 2
  else 1

/-- The highTier list local to NexusHunter.getBaseValue. -/
def highTier : List String := ["Hermès", "Chanel"]

/-- NexusHunter.getBaseValue: two-tier constant base valuation. -/
def getBaseValue (brand : String) : ℚ :=
  if highTier.contains brand then 5000 else 1500

/-- One eBay item summary as consumed by runSweep: `itemId`, `title`,
`condition` (absent modelled as none), `price?.value` (absent modelled as
none), `itemWebUrl`. -/
structure Item where
  itemId : String
  title : String
  condition : Option String
  price : Option ℚ
  itemWebUrl : String
deriving DecidableEq

/-- Signal status values of the MarketSignal interface. -/
inductive SigStatus where
  | PENDING
  | EXECUTED
  | REJECTED
deriving DecidableEq

/-- The MarketSignal record of `nexus-engine.ts` (the run timestamp,
an opaque wall-clock string, is dropped from the model). -/
structure MarketSignal where
  id : String
  source : String
  targetName : String
  brandCategory : String
  conditionScore : Nat
  listedPrice : ℚ
  estimatedValue : ℚ
  profitMargin : ℚ
  url : String
  status : SigStatus
deriving DecidableEq

/-- Models `item.condition || 'used'` (JS `||` also replaces the empty
string, which is falsy). -/
def condOrUsed : Option String → String
  | none => "used"
  | some s => if s = "" then "used" else s

/-- Models `Number(item.price?.value || 0)`. -/
def priceOf (item : Item) : ℚ :=
  item.price.getD 0

/-- The 30% margin admission guard of runSweep:
`estValue > listedPrice * 1.3`. -/
def admits (estValue listedPrice : ℚ) : Bool :=
  estValue > listedPrice * 1.3

/-- The signal record runSweep pushes for an admitted item that matched
brand `b`. -/
def mkSignal (b : String) (item : Item) : MarketSignal :=
  let condition := calculateCondition (condOrUsed item.condition)
  let estValue := getBaseValue b * condMultiplier condition
  { id := "EBAY-" ++ item.itemId
    source := "eBay"
    targetName := item.title
    brandCategory := b
    conditionScore := condition
    listedPrice := priceOf item
    estimatedValue := estValue
    profitMargin := estValue - priceOf item
    url := item.itemWebUrl
    status := SigStatus.PENDING }

/-- The per-item body of runSweep's processing loop:
brand match via `TARGET_BRANDS.find(b => item.title.includes(b))`, then the
margin guard; returns the pushed signal, if any. -/
def evalItem (item : Item) : Option MarketSignal :=
  match TARGET_BRANDS.find? (fun b => strContains item.title b) with
  | none => none
  | some brandMatch =>
      let condition := calculateCondition (condOrUsed item.condition)
      let estValue := getBaseValue brandMatch * condMultiplier condition
      if admits estValue (priceOf item) then some (mkSignal brandMatch item)
      else none

/-- The full processing loop of runSweep over `itemSummaries`: one pushed
signal per admitted item, in item order. -/
def processItems (items : List Item) : List MarketSignal :=
  items.filterMap evalItem

/-- A payload returned by a fetch or by the Playwright bypass: either a
parsed item-summary response or a raw-HTML capture. -/
inductive Payload where
  | items (itemSummaries : List Item)
  | rawHtml (content : String)
deriving DecidableEq

/-- The `itemSummaries` field of a payload; runSweep's guard
`ebayResponse && ebayResponse.itemSummaries` skips payloads without it. -/
def payloadItems : Payload → List Item
  | Payload.items l => l
  | Payload.rawHtml _ => []

/-- Outcome of one axios attempt inside safeApiCall: success with data, or
a failure carrying `error.response?.status` (none when the failure has no
HTTP response, e.g. a timeout). -/
inductive FetchResult where
  | success (data : Payload)
  | failure (status : Option Nat)
deriving DecidableEq

/-- Observable events of one safeApiCall invocation, in order: an axios
attempt, a Playwright bypass launch, or a backoff sleep of the given
milliseconds. -/
inductive Event where
  | call (attempt : Nat)
  | bypass (attempt : Nat)
  | backoff (ms : Nat)
deriving DecidableEq

/-- The WAF-blocking test of safeApiCall:
`status === 403 || status === 503`. -/
def blockedStatus (status : Option Nat) : Bool :=
  status == some 403 || status == some 503

/-- The retry loop of NexusHunter.safeApiCall, translated statement by
statement. `net a` is the outcome of the axios call on attempt `a`; `byp a`
is what `scrapeWithPlaywright` would return on attempt `a` (none when the
bypass fails). The fuel counts the remaining loop iterations
(`retries - attempt + 1` at entry), so fuel 0 is the loop exit returning
null. Returns the result together with the ordered event trace. -/
def safeApiCallGo (net : Nat → FetchResult) (byp : Nat → Option Payload)
    (retries : Nat) : Nat → Nat → Option Payload × List Event
  | 0, _ => (none, [])
  | fuel + 1, attempt =>
    match net attempt with
    | FetchResult.success d => (some d, [Event.call attempt])
    | FetchResult.failure status =>
      if blockedStatus status then
        match byp attempt with
        | some d => (some d, [Event.call attempt, Event.bypass attempt])
        | none =>
          if attempt == retries then (none, [Event.call attempt, Event.bypass attempt])
          else
            let delay := 1000 * 2 ^ (attempt - 1)
            let rest := safeApiCallGo net byp retries fuel (attempt + 1)
            (rest.1, Event.call attempt :: Event.bypass attempt :: Event.backoff delay :: rest.2)
      else
        if attempt == retries then (none, [Event.call attempt])
        else
          let delay := 1000 * 2 ^ (attempt - 1)
          let rest := safeApiCallGo net byp retries fuel (attempt + 1)
          (rest.1, Event.call attempt :: Event.backoff delay :: rest.2)

/-- NexusHunter.safeApiCall with its `retries` parameter: the loop starts
at attempt 1 with `retries` iterations available. -/
def safeApiCall (net : Nat → FetchResult) (byp : Nat → Option Payload)
    (retries : Nat) : Option Payload × List Event :=
  safeApiCallGo net byp retries retries 1

/-- The payload NexusHunter.scrapeWithPlaywright returns on its success
path, given the captured page `content`: the mock empty item-summary list
when the URL contains "ebay", otherwise the truncated raw HTML. -/
def scrapeWithPlaywrightResult (url : String) (content : String) : Payload :=
  if strContains url "ebay" then Payload.items []
  else Payload.rawHtml (content.take 500 ++ "...")

/-- A record inserted into the `nexus_logs` table. -/
structure LogRecord where
  level : String
  message : String
deriving DecidableEq

/-- Environment of one runSweep invocation: whether the Supabase
credentials are present (getSupabase throws before the try block when they
are missing), the message of an exception thrown inside the try block if
any (proxy selection, fetch and parse failures are all raised here), the
eBay fetch result when the body runs to the processing loop, and the error
returned by the `nexus_signals` insert when that insert runs. -/
structure SweepEnv where
  credentialsOk : Bool
  tryFailure : Option String
  ebayResponse : Option Payload
  insertError : Option String
deriving DecidableEq

/-- NexusHunter.runSweep, top level: getSupabase outside the try block
(missing credentials propagate), then the try/catch. The catch logs
`[CRITICAL FAILURE] Engine Sweep Halted: msg` to the console, inserts a
`nexus_logs` record with level ERROR, and returns the empty list. A failed
`nexus_signals` insert throws inside the try and is caught by the same
catch. Returns the signals, the inserted log records, and the console
error messages. -/
def runSweep (env : SweepEnv) :
    Except String (List MarketSignal × List LogRecord × List String) :=
  if env.credentialsOk = false then
    Except.error "FATAL: Supabase credentials missing. Nexus offline."
  else
    match env.tryFailure with
    | some msg =>
      Except.ok ([], [⟨"ERROR", msg⟩],
        ["[CRITICAL FAILURE] Engine Sweep Halted: " ++ msg])
    | none =>
      let signals :=
        match env.ebayResponse with
        | some p => processItems (payloadItems p)
        | none => []
      match (if signals.isEmpty then none else env.insertError) with
      | some m =>
        let msg := "Supabase Insert Failed: " ++ m
        Except.ok ([], [⟨"ERROR", msg⟩],
          ["[CRITICAL FAILURE] Engine Sweep Halted: " ++ msg])
      | none => Except.ok (signals, [], [])

/-- Takes the maximal leading run of decimal digits: returns its length
and the remainder. -/
def takeDigitsLen : List Char → Nat × List Char
  | [] => (0, [])
  | c :: cs =>
    if c.isDigit then
      let r := takeDigitsLen cs
      (r.1 + 1, r.2)
    else (0, c :: cs)

/-- Matches `\d{1,3}` followed by a non-digit (or the pattern's next
literal): because the regex's next token after each octet is a literal `.`
or `:` (never a digit), the backtracking regex matches exactly when the
whole maximal digit run has length 1..3, which is what this computes. -/
def matchOctet (cs : List Char) : Option (List Char) :=
  let r := takeDigitsLen cs
  if 1 ≤ r.1 ∧ r.1 ≤ 3 then some r.2 else none

/-- Matches one literal character. -/
def matchLit (c : Char) : List Char → Option (List Char)
  | [] => none
  | x :: xs => if x = c then some xs else none

/-- The proxy line validator of ProxyCommander.scrapeSources: the regex
`(caret)(\d(1,3)\.)(3)\d(1,3):\d(2,5)(dollar)` — four dot-separated 1–3
digit octets, a colon, and a 2–5 digit port, anchored at both ends. The
final `\d{2,5}(dollar)` matches exactly when the remainder is all digits
with length 2..5. -/
def proxyPatternTest (s : String) : Bool :=
  match ((((((((matchOctet s.data).bind (matchLit '.')).bind
      matchOctet).bind (matchLit '.')).bind
      matchOctet).bind (matchLit '.')).bind
      matchOctet).bind (matchLit ':')) with
  | none => false
  | some r =>
    let p := takeDigitsLen r
    decide (2 ≤ p.1 ∧ p.1 ≤ 5) && p.2.isEmpty

/-- Models `Set.add`: appends `s` unless already present, preserving
first-insertion order. -/
def insertUniq (acc : List String) (s : String) : List String :=
  if s ∈ acc then acc else acc ++ [s]

/-- The per-source body of ProxyCommander.scrapeSources: split the body on
newlines, trim each line, keep it when it matches the proxy pattern. -/
def harvestLines (body : String) : List String :=
  (((splitOnChar '\n' body.data).map (fun l => String.mk (trimChars l)))).filter
    proxyPatternTest

/-- The per-response step of scrapeSources: a failed source (none) is
logged and ignored, a successful body contributes its harvested lines. -/
def scrapeStep (acc : List String) (r : Option String) : List String :=
  match r with
  | none => acc
  | some body => (harvestLines body).foldl insertUniq acc

/-- ProxyCommander.scrapeSources over the fetched source bodies (none for
a source whose fetch failed, which is logged and ignored): every valid
trimmed line of every successful body is added to the shared set. The
model fixes one linearization of the concurrent insertions: source order,
line order within a source. -/
def scrapeSources (responses : List (Option String)) : List String :=
  responses.foldl scrapeStep []

/-- Proxy node status values. -/
inductive ProxyStatus where
  | UNTESTED
  | ACTIVE
  | DEAD
deriving DecidableEq

/-- The ProxyNode record of `proxy-core`. -/
structure ProxyNode where
  id : String
  ip : String
  port : Nat
  protocol : String
  status : ProxyStatus
  latency : Option Nat
  fail_count : Nat
  last_tested : String
deriving DecidableEq

/-- One probe of ProxyCommander.validateBatch. `env p` abstracts the axios
round trip through proxy `p`: `some latency` when the request succeeds
within the 5s timeout with the measured elapsed time, none on any failure
(timeout, refusal, TLS error, thrown non-2xx). `now` is the
`last_tested` timestamp string. -/
def probeProxy (env : String → Option Nat) (now : String)
    (proxyStr : String) : ProxyNode :=
  let parts := (splitOnChar ':' proxyStr.data).map String.mk
  let ip := parts.headD ""
  let port := ((parts.getD 1 "").toNat?).getD 0
  match env proxyStr with
  | some latency =>
    { id := proxyStr, ip := ip, port := port, protocol := "http",
      status := ProxyStatus.ACTIVE, latency := some latency,
      fail_count := 0, last_tested := now }
  | none =>
    { id := proxyStr, ip := ip, port := port, protocol := "http",
      status := ProxyStatus.DEAD, latency := none,
      fail_count := 1, last_tested := now }

/-- The chunked loop of ProxyCommander.validateBatch: probe a slice of
`concurrency` proxies fully, append its results, then advance to the
next slice. -/
def validateBatchGo (env : String → Option Nat) (now : String)
    (concurrency : Nat) : List String → List ProxyNode
  | [] => []
  | p :: rest =>
    ((p :: rest.take (concurrency - 1)).map (probeProxy env now)) ++
      validateBatchGo env now concurrency (rest.drop (concurrency - 1))
termination_by l => l.length
decreasing_by
  simp only [List.length_drop, List.length_cons]
  omega

/-- ProxyCommander.validateBatch with its concurrency parameter
(source default 50). -/
def validateBatch (env : String → Option Nat) (now : String)
    (proxies : List String) (concurrency : Nat) : List ProxyNode :=
  validateBatchGo env now concurrency proxies

/-- The `order('latency', ascending)` comparison of getOptimalProxy's
query, with SQL null ordering (ascending puts nulls last). -/
def latLe (a b : ProxyNode) : Bool :=
  match a.latency, b.latency with
  | some x, some y => x ≤ y
  | some _, none => true
  | none, some _ => false
  | none, none => true

/-- ProxyCommander.getOptimalProxy: the stored fleet filtered to status
ACTIVE, ordered by latency ascending, limited to one row; `.single()`
yields an error (hence null) when no row exists. -/
def getOptimalProxy (fleet : List ProxyNode) : Option ProxyNode :=
  ((fleet.filter (fun n => n.status == ProxyStatus.ACTIVE)).mergeSort latLe).head?

/-! ### Helper lemmas -/

theorem evalItem_eq_some (item : Item) (s : MarketSignal) :
    evalItem item = some s ↔
      ∃ b, TARGET_BRANDS.find? (fun br => strContains item.title br) = some b ∧
        admits (getBaseValue b *
            condMultiplier (calculateCondition (condOrUsed item.condition)))
          (priceOf item) = true ∧
        s = mkSignal b item := by
  unfold evalItem
  cases h : TARGET_BRANDS.find? (fun br => strContains item.title br) with
  | none => simp
  | some b =>
    constructor
    · intro heq
      refine ⟨b, rfl, ?_, ?_⟩
      · by_contra hadm
        simp only [Bool.not_eq_true] at hadm
        simp [hadm] at heq
      · by_cases hadm : admits (getBaseValue b *
            condMultiplier (calculateCondition (condOrUsed item.condition)))
            (priceOf item) = true
        · simp [hadm] at heq
          exact heq.symm
        · simp only [Bool.not_eq_true] at hadm
          simp [hadm] at heq
    · rintro ⟨b', hb', hadm, hs⟩
      cases hb'
      simp [hadm, hs]

/-! ### Claim theorems -/

/-- C1: in runSweep, a fetched listing is emitted as a MarketSignal if and
only if its title contains some target brand (the first match in
TARGET_BRANDS order wins) and its estimated value —
getBaseValue(brand) × condition-scale multiplier — is strictly greater
than listedPrice × 1.3; the admission guard accepts estimated value 131
against price 100 and rejects exactly 130. -/
theorem runSweep_admission :
    (∀ (items : List Item) (s : MarketSignal),
      s ∈ processItems items ↔
        ∃ item ∈ items, ∃ b,
          TARGET_BRANDS.find? (fun br => strContains item.title br) = some b ∧
          admits (getBaseValue b *
              condMultiplier (calculateCondition (condOrUsed item.condition)))
            (priceOf item) = true ∧
          s = mkSignal b item) ∧
    admits 131 100 = true ∧ admits 130 100 = false := by
  refine ⟨?_, ?_, ?_⟩
  · intro items s
    simp only [processItems, List.mem_filterMap]
    constructor
    · rintro ⟨item, hmem, heq⟩
      exact ⟨item, hmem, (evalItem_eq_some item s).mp heq⟩
    · rintro ⟨item, hmem, hrest⟩
      exact ⟨item, hmem, (evalItem_eq_some item s).mpr hrest⟩
  · simp [admits]
    norm_num
  · simp [admits]
    norm_num

/-- C8: calculateCondition returns 5 when the lowercased input contains
"new" or "mint", else 4 on "excellent", else 3 on "good" or "used", else 2
on "fair" or "parts", else 1, with the checks applied in exactly that
order, and the score is always in 1..5. -/
theorem calculateCondition_ordered_keywords (s : String) :
    (1 ≤ calculateCondition s ∧ calculateCondition s ≤ 5) ∧
    ((strContains (strToLower s) "new" || strContains (strToLower s) "mint") = true →
      calculateCondition s = 5) ∧
    ((strContains (strToLower s) "new" || strContains (strToLower s) "mint") = false →
      strContains (strToLower s) "excellent" = true → calculateCondition s = 4) ∧
    ((strContains (strToLower s) "new" || strContains (strToLower s) "mint") = false →
      strContains (strToLower s) "excellent" = false →
      (strContains (strToLower s) "good" || strContains (strToLower s) "used") = true →
      calculateCondition s = 3) ∧
    ((strContains (strToLower s) "new" || strContains (strToLower s) "mint") = false →
      strContains (strToLower s) "excellent" = false →
      (strContains (strToLower s) "good" || strContains (strToLower s) "used") = false →
      (strContains (strToLower s) "fair" || strContains (strToLower s) "parts") = true →
      calculateCondition s = 2) ∧
    ((strContains (strToLower s) "new" || strContains (strToLower s) "mint") = false →
      strContains (strToLower s) "excellent" = false →
      (strContains (strToLower s) "good" || strContains (strToLower s) "used") = false →
      (strContains (strToLower s) "fair" || strContains (strToLower s) "parts") = false →
      calculateCondition s = 1) := by
  refine ⟨?_, ?_, ?_, ?_, ?_, ?_⟩
  · simp only [calculateCondition]
    split
    · omega
    · split
      · omega
      · split
        · omega
        · split <;> omega
  all_goals intros
  all_goals simp_all [calculateCondition]

/-- C8 witness: the theorem applied to the concrete input "Brand New". -/
theorem calculateCondition_ordered_keywords_witness :
    calculateCondition "Brand New" = 5 :=
  (calculateCondition_ordered_keywords "Brand New").2.1 (by decide)

theorem safeApiCallGo_success (net : Nat → FetchResult) (byp : Nat → Option Payload)
    (r f a : Nat) (d : Payload) (hn : net a = FetchResult.success d) :
    safeApiCallGo net byp r (f + 1) a = (some d, [Event.call a]) := by
  simp [safeApiCallGo, hn]

theorem safeApiCallGo_blocked_bypass_ok (net : Nat → FetchResult)
    (byp : Nat → Option Payload) (r f a : Nat) (s : Option Nat) (d : Payload)
    (hn : net a = FetchResult.failure s) (hb : blockedStatus s = true)
    (hp : byp a = some d) :
    safeApiCallGo net byp r (f + 1) a = (some d, [Event.call a, Event.bypass a]) := by
  simp [safeApiCallGo, hn, hb, hp]

theorem safeApiCallGo_blocked_bypass_fail_last (net : Nat → FetchResult)
    (byp : Nat → Option Payload) (r f a : Nat) (s : Option Nat)
    (hn : net a = FetchResult.failure s) (hb : blockedStatus s = true)
    (hp : byp a = none) (ha : a = r) :
    safeApiCallGo net byp r (f + 1) a = (none, [Event.call a, Event.bypass a]) := by
  subst ha
  simp [safeApiCallGo, hn, hb, hp]

theorem safeApiCallGo_blocked_bypass_fail_cont (net : Nat → FetchResult)
    (byp : Nat → Option Payload) (r f a : Nat) (s : Option Nat)
    (hn : net a = FetchResult.failure s) (hb : blockedStatus s = true)
    (hp : byp a = none) (ha : a ≠ r) :
    safeApiCallGo net byp r (f + 1) a =
      ((safeApiCallGo net byp r f (a + 1)).1,
       Event.call a :: Event.bypass a :: Event.backoff (1000 * 2 ^ (a - 1)) ::
         (safeApiCallGo net byp r f (a + 1)).2) := by
  simp [safeApiCallGo, hn, hb, hp, beq_iff_eq, ha]

theorem safeApiCallGo_fail_last (net : Nat → FetchResult)
    (byp : Nat → Option Payload) (r f a : Nat) (s : Option Nat)
    (hn : net a = FetchResult.failure s) (hb : blockedStatus s = false)
    (ha : a = r) :
    safeApiCallGo net byp r (f + 1) a = (none, [Event.call a]) := by
  subst ha
  simp [safeApiCallGo, hn, hb]

theorem safeApiCallGo_fail_cont (net : Nat → FetchResult)
    (byp : Nat → Option Payload) (r f a : Nat) (s : Option Nat)
    (hn : net a = FetchResult.failure s) (hb : blockedStatus s = false)
    (ha : a ≠ r) :
    safeApiCallGo net byp r (f + 1) a =
      ((safeApiCallGo net byp r f (a + 1)).1,
       Event.call a :: Event.backoff (1000 * 2 ^ (a - 1)) ::
         (safeApiCallGo net byp r f (a + 1)).2) := by
  simp [safeApiCallGo, hn, hb, beq_iff_eq, ha]

/-- A network where every attempt fails without an HTTP status
(e.g. a timeout). -/
def netTimeouts : Nat → FetchResult := fun _ => FetchResult.failure none

/-- A network where every attempt fails with HTTP 403. -/
def net403 : Nat → FetchResult := fun _ => FetchResult.failure (some 403)

/-- A bypass that always fails (scrapeWithPlaywright returning null). -/
def bypNone : Nat → Option Payload := fun _ => none

/-- A demonstration payload for a successful bypass. -/
def payloadDemo : Payload := Payload.rawHtml "challenge solved"

/-- A bypass that always succeeds with `payloadDemo`. -/
def bypData : Nat → Option Payload := fun _ => some payloadDemo

/-- C2 counterexample: under three consecutive timeouts the fetch makes
exactly 3 attempts and returns null, but it waits only the 1000 ms and
2000 ms delays — the claimed third 4000 ms delay never occurs, because the
loop returns null from the final attempt before computing a delay. -/
theorem safeApiCall_timeouts_no_third_delay :
    safeApiCall netTimeouts bypNone 3 =
      (none, [Event.call 1, Event.backoff 1000, Event.call 2, Event.backoff 2000,
              Event.call 3]) ∧
    Event.backoff 4000 ∉ (safeApiCall netTimeouts bypNone 3).2 := by
  constructor
  · rfl
  · decide

/-- C2 amended: a fetch whose three attempts all fail with a status that is
neither 403 nor 503 makes exactly 3 attempts, waits 1000 ms after attempt 1
and 2000 ms after attempt 2 (the 1000·2^(attempt−1) schedule, with no delay
after the final attempt), and afterwards returns null; the embedding is a
total function, so no exception is ever raised. -/
theorem safeApiCall_exhausts_three_attempts (net : Nat → FetchResult)
    (byp : Nat → Option Payload)
    (h : ∀ a, ∃ s, net a = FetchResult.failure s ∧ blockedStatus s = false) :
    safeApiCall net byp 3 =
      (none, [Event.call 1, Event.backoff 1000, Event.call 2, Event.backoff 2000,
              Event.call 3]) := by
  obtain ⟨s1, h1, b1⟩ := h 1
  obtain ⟨s2, h2, b2⟩ := h 2
  obtain ⟨s3, h3, b3⟩ := h 3
  have e1 := safeApiCallGo_fail_cont net byp 3 2 1 s1 h1 b1 (by omega)
  have e2 := safeApiCallGo_fail_cont net byp 3 1 2 s2 h2 b2 (by omega)
  have e3 := safeApiCallGo_fail_last net byp 3 0 3 s3 h3 b3 rfl
  norm_num at e1 e2 e3
  show safeApiCallGo net byp 3 3 1 = _
  rw [e1, e2, e3]

/-- C2 witness: the amended theorem applied to the all-timeouts network. -/
theorem safeApiCall_exhausts_three_attempts_witness :
    safeApiCall netTimeouts bypNone 3 =
      (none, [Event.call 1, Event.backoff 1000, Event.call 2, Event.backoff 2000,
              Event.call 3]) :=
  safeApiCall_exhausts_three_attempts netTimeouts bypNone
    (fun _ => ⟨none, rfl, rfl⟩)

/-- C3: a fetch attempt failing with HTTP 403 or 503 launches the Playwright
bypass for that attempt before any backoff delay; a successful bypass's data
is returned immediately with no further attempts; and a failure with any
other status never launches the bypass at any attempt. -/
theorem safeApiCall_waf_escalation :
    (∀ (net : Nat → FetchResult) (byp : Nat → Option Payload) (r f a : Nat)
        (s : Option Nat) (d : Payload),
      net a = FetchResult.failure s → blockedStatus s = true → byp a = some d →
      safeApiCallGo net byp r (f + 1) a =
        (some d, [Event.call a, Event.bypass a])) ∧
    (∀ (net : Nat → FetchResult) (byp : Nat → Option Payload) (r f a k : Nat),
      (∀ n s, net n = FetchResult.failure s → blockedStatus s = false) →
      Event.bypass k ∉ (safeApiCallGo net byp r f a).2) := by
  constructor
  · intro net byp r f a s d hn hb hp
    exact safeApiCallGo_blocked_bypass_ok net byp r f a s d hn hb hp
  · intro net byp r f a k hnb
    induction f generalizing a with
    | zero => simp [safeApiCallGo]
    | succ f ih =>
      cases hna : net a with
      | success d => simp [safeApiCallGo_success net byp r f a d hna]
      | failure s =>
        have hb := hnb a s hna
        by_cases hr : a = r
        · rw [safeApiCallGo_fail_last net byp r f a s hna hb hr]
          simp
        · rw [safeApiCallGo_fail_cont net byp r f a s hna hb hr]
          intro hmem
          simp only [List.mem_cons] at hmem
          rcases hmem with h1 | h1 | h1
          · exact Event.noConfusion h1
          · exact Event.noConfusion h1
          · exact ih (a + 1) h1

/-- C3 witness: a 403 on attempt 1 with a successful bypass returns the
bypass data with no backoff event, and the no-status network never produces
a bypass event. -/
theorem safeApiCall_waf_escalation_witness :
    safeApiCallGo net403 bypData 3 (2 + 1) 1 =
      (some payloadDemo, [Event.call 1, Event.bypass 1]) ∧
    Event.bypass 1 ∉ (safeApiCallGo netTimeouts bypNone 3 3 1).2 := by
  constructor
  · exact safeApiCall_waf_escalation.1 net403 bypData 3 2 1 (some 403) payloadDemo
      rfl rfl rfl
  · exact safeApiCall_waf_escalation.2 netTimeouts bypNone 3 3 1 1
      (fun n s h => by
        have : s = none := by simpa [netTimeouts] using h.symm
        simp [this, blockedStatus])

/-- Counts Playwright bypass launches in a trace. -/
def countBypass (tr : List Event) : Nat :=
  (tr.filter (fun e => match e with | Event.bypass _ => true | _ => false)).length

theorem countBypass_nil : countBypass [] = 0 := rfl

theorem countBypass_cons_call (a : Nat) (tr : List Event) :
    countBypass (Event.call a :: tr) = countBypass tr := by
  simp [countBypass]

theorem countBypass_cons_bypass (a : Nat) (tr : List Event) :
    countBypass (Event.bypass a :: tr) = countBypass tr + 1 := by
  simp [countBypass, List.filter_cons]

theorem countBypass_cons_backoff (d : Nat) (tr : List Event) :
    countBypass (Event.backoff d :: tr) = countBypass tr := by
  simp [countBypass]

theorem countBypass_le_fuel (net : Nat → FetchResult) (byp : Nat → Option Payload)
    (r : Nat) : ∀ f a, countBypass (safeApiCallGo net byp r f a).2 ≤ f := by
  intro f
  induction f with
  | zero => intro a; simp [safeApiCallGo, countBypass]
  | succ f ih =>
    intro a
    cases hna : net a with
    | success d =>
      rw [safeApiCallGo_success net byp r f a d hna]
      simp only [countBypass_cons_call, countBypass_nil]
      omega
    | failure s =>
      by_cases hb : blockedStatus s = true
      · cases hp : byp a with
        | some d =>
          rw [safeApiCallGo_blocked_bypass_ok net byp r f a s d hna hb hp]
          simp only [countBypass_cons_call, countBypass_cons_bypass, countBypass_nil]
          omega
        | none =>
          by_cases hr : a = r
          · rw [safeApiCallGo_blocked_bypass_fail_last net byp r f a s hna hb hp hr]
            simp only [countBypass_cons_call, countBypass_cons_bypass, countBypass_nil]
            omega
          · rw [safeApiCallGo_blocked_bypass_fail_cont net byp r f a s hna hb hp hr]
            have := ih (a + 1)
            simp only [countBypass_cons_call, countBypass_cons_bypass,
              countBypass_cons_backoff]
            omega
      · have hb' : blockedStatus s = false := by
          revert hb; cases blockedStatus s <;> simp
        by_cases hr : a = r
        · rw [safeApiCallGo_fail_last net byp r f a s hna hb' hr]
          simp only [countBypass_cons_call, countBypass_nil]
          omega
        · rw [safeApiCallGo_fail_cont net byp r f a s hna hb' hr]
          have := ih (a + 1)
          simp only [countBypass_cons_call, countBypass_cons_backoff]
          omega

theorem none_result_reaches_final (net : Nat → FetchResult)
    (byp : Nat → Option Payload) (r : Nat) :
    ∀ f a, 1 ≤ f → a + f = r + 1 →
      (safeApiCallGo net byp r f a).1 = none →
      Event.call r ∈ (safeApiCallGo net byp r f a).2 := by
  intro f
  induction f with
  | zero => intro a hf; omega
  | succ f ih =>
    intro a _ hsum hnone
    cases hna : net a with
    | success d =>
      rw [safeApiCallGo_success net byp r f a d hna] at hnone
      exact absurd hnone (by simp)
    | failure s =>
      by_cases hb : blockedStatus s = true
      · cases hp : byp a with
        | some d =>
          rw [safeApiCallGo_blocked_bypass_ok net byp r f a s d hna hb hp] at hnone
          exact absurd hnone (by simp)
        | none =>
          by_cases hr : a = r
          · rw [safeApiCallGo_blocked_bypass_fail_last net byp r f a s hna hb hp hr]
            simp [hr]
          · rw [safeApiCallGo_blocked_bypass_fail_cont net byp r f a s hna hb hp hr]
            rw [safeApiCallGo_blocked_bypass_fail_cont net byp r f a s hna hb hp hr] at hnone
            have hrec := ih (a + 1) (by omega) (by omega) hnone
            simp only [List.mem_cons]
            exact Or.inr (Or.inr (Or.inr hrec))
      · have hb' : blockedStatus s = false := by
          revert hb; cases blockedStatus s <;> simp
        by_cases hr : a = r
        · rw [safeApiCallGo_fail_last net byp r f a s hna hb' hr]
          simp [hr]
        · rw [safeApiCallGo_fail_cont net byp r f a s hna hb' hr]
          rw [safeApiCallGo_fail_cont net byp r f a s hna hb' hr] at hnone
          have hrec := ih (a + 1) (by omega) (by omega) hnone
          simp only [List.mem_cons]
          exact Or.inr (Or.inr hrec)

/-- C10: a failed bypass does not terminate the fetch: on a blocked
(403/503) attempt that is not the final one, safeApiCall still applies the
backoff delay and proceeds to the next attempt; the bypass is launched at
most once per attempt (so at most 3 times over a 3-attempt fetch); and the
fetch returns null only once the final attempt has run. -/
theorem safeApiCall_bypass_failure_continues :
    (∀ (net : Nat → FetchResult) (byp : Nat → Option Payload) (r f a : Nat)
        (s : Option Nat),
      net a = FetchResult.failure s → blockedStatus s = true → byp a = none →
      a ≠ r →
      safeApiCallGo net byp r (f + 1) a =
        ((safeApiCallGo net byp r f (a + 1)).1,
         Event.call a :: Event.bypass a :: Event.backoff (1000 * 2 ^ (a - 1)) ::
           (safeApiCallGo net byp r f (a + 1)).2)) ∧
    (∀ (net : Nat → FetchResult) (byp : Nat → Option Payload),
      countBypass (safeApiCall net byp 3).2 ≤ 3) ∧
    (∀ (net : Nat → FetchResult) (byp : Nat → Option Payload),
      (safeApiCall net byp 3).1 = none →
      Event.call 3 ∈ (safeApiCall net byp 3).2) := by
  refine ⟨?_, ?_, ?_⟩
  · intro net byp r f a s hn hb hp ha
    exact safeApiCallGo_blocked_bypass_fail_cont net byp r f a s hn hb hp ha
  · intro net byp
    exact countBypass_le_fuel net byp 3 3 1
  · intro net byp hnone
    exact none_result_reaches_final net byp 3 3 1 (by omega) (by omega) hnone

/-- C10 witness: the theorem applied to concrete networks: a 403 with a
failing bypass on a non-final attempt backs off and continues; the
all-timeouts run launches at most 3 bypasses and, yielding null, has made
its third attempt. -/
theorem safeApiCall_bypass_failure_continues_witness :
    safeApiCallGo net403 bypNone 3 (1 + 1) 1 =
      ((safeApiCallGo net403 bypNone 3 1 2).1,
       Event.call 1 :: Event.bypass 1 :: Event.backoff (1000 * 2 ^ (1 - 1)) ::
         (safeApiCallGo net403 bypNone 3 1 2).2) ∧
    countBypass (safeApiCall netTimeouts bypNone 3).2 ≤ 3 ∧
    Event.call 3 ∈ (safeApiCall netTimeouts bypNone 3).2 := by
  refine ⟨?_, ?_, ?_⟩
  · exact safeApiCall_bypass_failure_continues.1 net403 bypNone 3 1 1 (some 403)
      rfl rfl rfl (by omega)
  · exact safeApiCall_bypass_failure_continues.2.1 netTimeouts bypNone
  · exact safeApiCall_bypass_failure_continues.2.2 netTimeouts bypNone rfl

/-- C9: when the Playwright bypass succeeds for a URL containing "ebay" it
returns the mock payload with an empty itemSummaries list, so a blocked
eBay fetch rescued by the bypass can contribute no MarketSignal to the
sweep result. -/
theorem ebay_bypass_has_no_items (url content : String)
    (h : strContains url "ebay" = true) :
    scrapeWithPlaywrightResult url content = Payload.items [] ∧
    processItems (payloadItems (scrapeWithPlaywrightResult url content)) = [] := by
  constructor
  · simp [scrapeWithPlaywrightResult, h]
  · simp [scrapeWithPlaywrightResult, h, payloadItems, processItems]

/-- C9 witness: the theorem applied to the sweep's actual eBay URL. -/
theorem ebay_bypass_has_no_items_witness :
    scrapeWithPlaywrightResult
        "https://api.ebay.com/buy/browse/v1/item_summary/search?q=designer+bag"
        "" = Payload.items [] ∧
    processItems (payloadItems (scrapeWithPlaywrightResult
        "https://api.ebay.com/buy/browse/v1/item_summary/search?q=designer+bag"
        "")) = [] :=
  ebay_bypass_has_no_items _ _ (by decide)

/-- A sweep environment whose try block throws with message "boom". -/
def envBoom : SweepEnv :=
  { credentialsOk := true, tryFailure := some "boom",
    ebayResponse := none, insertError := none }

/-- C4 counterexample: at the concrete failing sweep `envBoom` the catch
block returns the empty list, but the persisted log record carries level
ERROR, not CRITICAL — only the console error message is marked
"[CRITICAL FAILURE]" — so the claimed CRITICAL-severity log record is never
written. -/
theorem runSweep_log_level_not_critical :
    runSweep envBoom =
      Except.ok ([], [⟨"ERROR", "boom"⟩],
        ["[CRITICAL FAILURE] Engine Sweep Halted: " ++ "boom"]) ∧
    ("ERROR" : String) ≠ "CRITICAL" := by
  constructor
  · rfl
  · decide

/-- C4 amended: with store credentials present, every failure raised inside
the try block (including a failed signals insert) is caught at the top
level: the sweep returns successfully with an empty signal list, writes a
console error marked "[CRITICAL FAILURE]", and persists a nexus_logs record
with level ERROR; only missing credentials, checked before the try block,
propagate an error to the caller. -/
theorem runSweep_catches_all (env : SweepEnv) (msg : String)
    (hc : env.credentialsOk = true) :
    (∃ out, runSweep env = Except.ok out) ∧
    (env.tryFailure = some msg →
      runSweep env =
        Except.ok ([], [⟨"ERROR", msg⟩],
          ["[CRITICAL FAILURE] Engine Sweep Halted: " ++ msg])) ∧
    (env.tryFailure = none →
      (match env.ebayResponse with
        | some p => processItems (payloadItems p)
        | none => []).isEmpty = false →
      env.insertError = some msg →
      runSweep env =
        Except.ok ([], [⟨"ERROR", "Supabase Insert Failed: " ++ msg⟩],
          ["[CRITICAL FAILURE] Engine Sweep Halted: " ++
            ("Supabase Insert Failed: " ++ msg)])) := by
  refine ⟨?_, ?_, ?_⟩
  · unfold runSweep
    rw [if_neg (by simp [hc])]
    split
    · exact ⟨_, rfl⟩
    · split
      all_goals dsimp only
      all_goals split
      all_goals exact ⟨_, rfl⟩
  · intro htf
    unfold runSweep
    rw [if_neg (by simp [hc]), htf]
  · intro htf hne hie
    unfold runSweep
    rw [if_neg (by simp [hc]), htf]
    simp only [hne, Bool.false_eq_true, if_false, hie]

/-- C4 witness: the amended theorem applied to the concrete environment
`envBoom`. -/
theorem runSweep_catches_all_witness :
    runSweep envBoom =
      Except.ok ([], [⟨"ERROR", "boom"⟩],
        ["[CRITICAL FAILURE] Engine Sweep Halted: " ++ "boom"]) :=
  (runSweep_catches_all envBoom "boom" rfl).2.1 rfl

theorem validateBatchGo_eq_map (env : String → Option Nat) (now : String)
    (c : Nat) (l : List String) :
    validateBatchGo env now c l = l.map (probeProxy env now) := by
  have key : ∀ (n : Nat) (l : List String), l.length ≤ n →
      validateBatchGo env now c l = l.map (probeProxy env now) := by
    intro n
    induction n with
    | zero =>
      intro l hl
      have hnil : l = [] := List.eq_nil_of_length_eq_zero (Nat.le_zero.mp hl)
      subst hnil
      simp [validateBatchGo]
    | succ n ih =>
      intro l hl
      cases l with
      | nil => simp [validateBatchGo]
      | cons p rest =>
        rw [validateBatchGo]
        rw [ih (rest.drop (c - 1))
          (by simp only [List.length_drop]; simp only [List.length_cons] at hl; omega)]
        rw [← List.map_append]
        congr 1
        simp [List.take_append_drop]
  exact key l.length l (Nat.le_refl _)

/-- C5: every node validateBatch produces satisfies the fleet invariant:
a probe succeeding within the timeout yields status ACTIVE with the
measured latency and fail_count 0; any probe failure yields status DEAD
with null latency and fail_count 1; consequently, for every node produced,
status = ACTIVE ⇔ latency ≠ null. -/
theorem validateBatch_node_invariant :
    (∀ (env : String → Option Nat) (now p : String) (lat : Nat),
      env p = some lat →
      (probeProxy env now p).status = ProxyStatus.ACTIVE ∧
      (probeProxy env now p).latency = some lat ∧
      (probeProxy env now p).fail_count = 0) ∧
    (∀ (env : String → Option Nat) (now p : String),
      env p = none →
      (probeProxy env now p).status = ProxyStatus.DEAD ∧
      (probeProxy env now p).latency = none ∧
      (probeProxy env now p).fail_count = 1) ∧
    (∀ (env : String → Option Nat) (now : String) (proxies : List String)
        (c : Nat) (node : ProxyNode),
      node ∈ validateBatch env now proxies c →
      (node.status = ProxyStatus.ACTIVE ↔ node.latency ≠ none)) := by
  refine ⟨?_, ?_, ?_⟩
  · intro env now p lat h
    simp [probeProxy, h]
  · intro env now p h
    simp [probeProxy, h]
  · intro env now proxies c node hmem
    rw [validateBatch, validateBatchGo_eq_map] at hmem
    obtain ⟨p, _, hp⟩ := List.mem_map.mp hmem
    subst hp
    cases h : env p with
    | some lat => simp [probeProxy, h]
    | none => simp [probeProxy, h]

/-- A probe environment where exactly "1.2.3.4:8080" responds, in 42 ms. -/
def envProbeDemo : String → Option Nat :=
  fun p => if p = "1.2.3.4:8080" then some 42 else none

/-- C5 witness: the theorem applied to the concrete probe environment
`envProbeDemo`, one succeeding node and one failing node. -/
theorem validateBatch_node_invariant_witness :
    ((probeProxy envProbeDemo "t" "1.2.3.4:8080").status = ProxyStatus.ACTIVE ∧
      (probeProxy envProbeDemo "t" "1.2.3.4:8080").latency = some 42 ∧
      (probeProxy envProbeDemo "t" "1.2.3.4:8080").fail_count = 0) ∧
    ((probeProxy envProbeDemo "t" "9.9.9.9:80").status = ProxyStatus.DEAD ∧
      (probeProxy envProbeDemo "t" "9.9.9.9:80").latency = none ∧
      (probeProxy envProbeDemo "t" "9.9.9.9:80").fail_count = 1) ∧
    ((probeProxy envProbeDemo "t" "1.2.3.4:8080").status = ProxyStatus.ACTIVE ↔
      (probeProxy envProbeDemo "t" "1.2.3.4:8080").latency ≠ none) := by
  refine ⟨?_, ?_, ?_⟩
  · exact validateBatch_node_invariant.1 envProbeDemo "t" "1.2.3.4:8080" 42 (by decide)
  · exact validateBatch_node_invariant.2.1 envProbeDemo "t" "9.9.9.9:80" (by decide)
  · exact validateBatch_node_invariant.2.2 envProbeDemo "t" ["1.2.3.4:8080"] 50
      (probeProxy envProbeDemo "t" "1.2.3.4:8080")
      (by rw [validateBatch, validateBatchGo_eq_map]
          exact List.mem_map_of_mem _ (by simp))

theorem latLe_refl (a : ProxyNode) : latLe a a = true := by
  unfold latLe
  cases a.latency <;> simp

theorem latLe_total (a b : ProxyNode) : (latLe a b || latLe b a) = true := by
  unfold latLe
  rcases a.latency with _ | x <;> rcases b.latency with _ | y
  all_goals simp
  omega

theorem latLe_trans (a b c : ProxyNode) (h1 : latLe a b = true)
    (h2 : latLe b c = true) : latLe a c = true := by
  unfold latLe at h1 h2 ⊢
  generalize a.latency = al at h1 ⊢
  generalize b.latency = bl at h1 h2
  generalize c.latency = cl at h2 ⊢
  rcases al with _ | x <;> rcases bl with _ | y <;> rcases cl with _ | z
  all_goals simp_all
  omega

/-- An ACTIVE demo node with 50 ms latency. -/
def node50 : ProxyNode :=
  ⟨"10.0.0.1:3128", "10.0.0.1", 3128, "http", ProxyStatus.ACTIVE, some 50, 0, "t0"⟩

/-- An ACTIVE demo node with 20 ms latency. -/
def node20 : ProxyNode :=
  ⟨"10.0.0.2:3128", "10.0.0.2", 3128, "http", ProxyStatus.ACTIVE, some 20, 0, "t0"⟩

/-- An ACTIVE demo node with 80 ms latency. -/
def node80 : ProxyNode :=
  ⟨"10.0.0.3:3128", "10.0.0.3", 3128, "http", ProxyStatus.ACTIVE, some 80, 0, "t0"⟩

/-- The all-ACTIVE demo fleet with latencies [50, 20, 80]. -/
def fleetDemo : List ProxyNode := [node50, node20, node80]

/-- An all-DEAD demo fleet. -/
def fleetAllDead : List ProxyNode :=
  [⟨"10.0.1.1:3128", "10.0.1.1", 3128, "http", ProxyStatus.DEAD, none, 1, "t0"⟩,
   ⟨"10.0.1.2:3128", "10.0.1.2", 3128, "http", ProxyStatus.DEAD, none, 1, "t0"⟩]

/-- C6: getOptimalProxy returns an ACTIVE node of the fleet whose latency
is minimal among all ACTIVE nodes, and none when the fleet has no ACTIVE
node; over the all-ACTIVE demo fleet with latencies [50, 20, 80] it returns
the 20 ms node, over an all-DEAD fleet it returns none. -/
theorem getOptimalProxy_spec :
    (∀ (fleet : List ProxyNode) (node : ProxyNode),
      getOptimalProxy fleet = some node →
      node ∈ fleet ∧ node.status = ProxyStatus.ACTIVE ∧
        ∀ other ∈ fleet, other.status = ProxyStatus.ACTIVE →
          latLe node other = true) ∧
    (∀ fleet : List ProxyNode,
      (∀ n ∈ fleet, n.status ≠ ProxyStatus.ACTIVE) →
      getOptimalProxy fleet = none) ∧
    (∀ fleet : List ProxyNode,
      (∃ n ∈ fleet, n.status = ProxyStatus.ACTIVE) →
      (getOptimalProxy fleet).isSome = true) ∧
    getOptimalProxy fleetDemo = some node20 ∧
    getOptimalProxy fleetAllDead = none := by
  have part1 : ∀ (fleet : List ProxyNode) (node : ProxyNode),
      getOptimalProxy fleet = some node →
      node ∈ fleet ∧ node.status = ProxyStatus.ACTIVE ∧
        ∀ other ∈ fleet, other.status = ProxyStatus.ACTIVE →
          latLe node other = true := by
    intro fleet node h
    unfold getOptimalProxy at h
    cases hms : (fleet.filter (fun n => n.status == ProxyStatus.ACTIVE)).mergeSort latLe with
    | nil => rw [hms] at h; cases h
    | cons x t =>
      rw [hms] at h
      have hx : x = node := by simpa using h
      subst hx
      have hmem : x ∈ (fleet.filter (fun n => n.status == ProxyStatus.ACTIVE)).mergeSort latLe := by
        rw [hms]; exact List.mem_cons_self x t
      have hfil := List.mem_mergeSort.mp hmem
      obtain ⟨hin, hact⟩ := List.mem_filter.mp hfil
      refine ⟨hin, by simpa using hact, ?_⟩
      intro other hof hoa
      have hofil : other ∈ fleet.filter (fun n => n.status == ProxyStatus.ACTIVE) :=
        List.mem_filter.mpr ⟨hof, by simp [hoa]⟩
      have homs : other ∈ (fleet.filter (fun n => n.status == ProxyStatus.ACTIVE)).mergeSort latLe :=
        List.mem_mergeSort.mpr hofil
      rw [hms] at homs
      rcases List.mem_cons.mp homs with he | ht
      · rw [he]; exact latLe_refl x
      · have hsorted := List.sorted_mergeSort latLe_trans latLe_total
          (fleet.filter (fun n => n.status == ProxyStatus.ACTIVE))
        rw [hms] at hsorted
        exact (List.pairwise_cons.mp hsorted).1 other ht
  have part2 : ∀ fleet : List ProxyNode,
      (∀ n ∈ fleet, n.status ≠ ProxyStatus.ACTIVE) →
      getOptimalProxy fleet = none := by
    intro fleet h
    unfold getOptimalProxy
    have hfil : fleet.filter (fun n => n.status == ProxyStatus.ACTIVE) = [] := by
      rw [List.filter_eq_nil_iff]
      intro n hn
      simp [h n hn]
    rw [hfil, List.mergeSort_nil]
    rfl
  have part3 : ∀ fleet : List ProxyNode,
      (∃ n ∈ fleet, n.status = ProxyStatus.ACTIVE) →
      (getOptimalProxy fleet).isSome = true := by
    rintro fleet ⟨n, hmem, hact⟩
    unfold getOptimalProxy
    have hn : n ∈ (fleet.filter (fun n => n.status == ProxyStatus.ACTIVE)).mergeSort latLe :=
      List.mem_mergeSort.mpr (List.mem_filter.mpr ⟨hmem, by simp [hact]⟩)
    cases hms : (fleet.filter (fun n => n.status == ProxyStatus.ACTIVE)).mergeSort latLe with
    | nil => rw [hms] at hn; cases hn
    | cons x t => rfl
  refine ⟨part1, part2, part3, ?_, ?_⟩
  · have hsome := part3 fleetDemo ⟨node20, by simp [fleetDemo], rfl⟩
    obtain ⟨node, hnode⟩ := Option.isSome_iff_exists.mp hsome
    obtain ⟨hmem, _, hmin⟩ := part1 fleetDemo node hnode
    have h20 := hmin node20 (by simp [fleetDemo]) rfl
    rw [hnode]
    congr 1
    simp [fleetDemo] at hmem
    rcases hmem with h | h | h
    · exfalso; rw [h] at h20; revert h20; decide
    · exact h
    · exfalso; rw [h] at h20; revert h20; decide
  · exact part2 fleetAllDead (by decide)

/-- C6 witness: the theorem applied to concrete fleets — at the demo fleet
it certifies the returned 20 ms node is an ACTIVE latency-minimum, and the
all-DEAD fleet yields none. -/
theorem getOptimalProxy_spec_witness :
    (node20 ∈ fleetDemo ∧ node20.status = ProxyStatus.ACTIVE ∧
      ∀ other ∈ fleetDemo, other.status = ProxyStatus.ACTIVE →
        latLe node20 other = true) ∧
    getOptimalProxy fleetAllDead = none ∧
    (getOptimalProxy fleetDemo).isSome = true := by
  refine ⟨?_, ?_, ?_⟩
  · exact getOptimalProxy_spec.1 fleetDemo node20 getOptimalProxy_spec.2.2.2.1
  · exact getOptimalProxy_spec.2.1 fleetAllDead (by decide)
  · exact getOptimalProxy_spec.2.2.1 fleetDemo ⟨node20, by simp [fleetDemo], rfl⟩

theorem mem_insertUniq (acc : List String) (s x : String) :
    x ∈ insertUniq acc s ↔ x ∈ acc ∨ x = s := by
  unfold insertUniq
  split_ifs with hs
  · constructor
    · exact Or.inl
    · rintro (h | rfl)
      · exact h
      · exact hs
  · simp

theorem nodup_insertUniq (acc : List String) (s : String) (h : acc.Nodup) :
    (insertUniq acc s).Nodup := by
  unfold insertUniq
  split_ifs with hs
  · exact h
  · rw [List.nodup_append]
    refine ⟨h, List.nodup_singleton s, ?_⟩
    intro a ha hb
    simp only [List.mem_singleton] at hb
    subst hb
    exact hs ha

theorem mem_foldl_insertUniq (l acc : List String) (x : String) :
    x ∈ l.foldl insertUniq acc ↔ x ∈ acc ∨ x ∈ l := by
  induction l generalizing acc with
  | nil => simp
  | cons a l ih =>
    simp only [List.foldl_cons, ih, mem_insertUniq, List.mem_cons]
    tauto

theorem nodup_foldl_insertUniq (l acc : List String) (h : acc.Nodup) :
    (l.foldl insertUniq acc).Nodup := by
  induction l generalizing acc with
  | nil => simpa
  | cons a l ih => exact ih _ (nodup_insertUniq acc a h)

theorem mem_foldl_scrapeStep (resp : List (Option String)) (acc : List String)
    (x : String) :
    x ∈ resp.foldl scrapeStep acc ↔
      x ∈ acc ∨ ∃ body, some body ∈ resp ∧ x ∈ harvestLines body := by
  induction resp generalizing acc with
  | nil => simp
  | cons r resp ih =>
    cases r with
    | none =>
      simp only [List.foldl_cons, scrapeStep, ih]
      constructor
      · rintro (hx | ⟨body, hm, hx⟩)
        · exact Or.inl hx
        · exact Or.inr ⟨body, List.mem_cons_of_mem _ hm, hx⟩
      · rintro (hx | ⟨body, hm, hx⟩)
        · exact Or.inl hx
        · rcases List.mem_cons.mp hm with he | hm'
          · cases he
          · exact Or.inr ⟨body, hm', hx⟩
    | some b =>
      simp only [List.foldl_cons, scrapeStep, ih, mem_foldl_insertUniq]
      constructor
      · rintro ((hx | hb) | ⟨body, hm, hx⟩)
        · exact Or.inl hx
        · exact Or.inr ⟨b, List.mem_cons_self _ _, hb⟩
        · exact Or.inr ⟨body, List.mem_cons_of_mem _ hm, hx⟩
      · rintro (hx | ⟨body, hm, hx⟩)
        · exact Or.inl (Or.inl hx)
        · rcases List.mem_cons.mp hm with he | hm'
          · have hbe : body = b := by injection he
            subst hbe
            exact Or.inl (Or.inr hx)
          · exact Or.inr ⟨body, hm', hx⟩

theorem nodup_foldl_scrapeStep (resp : List (Option String)) (acc : List String)
    (h : acc.Nodup) : (resp.foldl scrapeStep acc).Nodup := by
  induction resp generalizing acc with
  | nil => simpa
  | cons r resp ih =>
    cases r with
    | none => exact ih _ h
    | some b => exact ih _ (nodup_foldl_insertUniq _ _ h)

/-- C7: harvest membership is exactly "a harvested line of some successful
source"; every returned string matches the strict ip:port pattern (four
dot-separated 1–3 digit octets, colon, 2–5 digit port) with all other lines
dropped; the result is deduplicated; and, octets being unbounded,
"999.1.1.1:80" passes the pattern and is harvested. -/
theorem scrapeSources_strict_pattern :
    (∀ (responses : List (Option String)) (x : String),
      x ∈ scrapeSources responses ↔
        ∃ body, some body ∈ responses ∧ x ∈ harvestLines body) ∧
    (∀ (responses : List (Option String)) (x : String),
      x ∈ scrapeSources responses → proxyPatternTest x = true) ∧
    (∀ responses : List (Option String), (scrapeSources responses).Nodup) ∧
    proxyPatternTest "999.1.1.1:80" = true ∧
    scrapeSources [some "999.1.1.1:80"] = ["999.1.1.1:80"] := by
  have hchar : ∀ (responses : List (Option String)) (x : String),
      x ∈ scrapeSources responses ↔
        ∃ body, some body ∈ responses ∧ x ∈ harvestLines body := by
    intro responses x
    unfold scrapeSources
    rw [mem_foldl_scrapeStep]
    simp
  refine ⟨hchar, ?_, ?_, ?_, ?_⟩
  · intro responses x hx
    obtain ⟨body, _, hline⟩ := (hchar responses x).mp hx
    exact (List.mem_filter.mp hline).2
  · intro responses
    exact nodup_foldl_scrapeStep responses [] List.nodup_nil
  · decide
  · decide

/-- C7 witness: the pattern-soundness part of the theorem applied to a
concrete single-source harvest. -/
theorem scrapeSources_strict_pattern_witness :
    proxyPatternTest "203.0.113.7:3128" = true :=
  scrapeSources_strict_pattern.2.1 [some "203.0.113.7:3128\njunk line"]
    "203.0.113.7:3128" (by decide)

end VoidNexus
